import Mathlib

/-!
Shallow embedding of the DirTree-Generation tool (src/main.go).

The program's core is:
  * `parseStructureFromFile` — decodes a JSON/YAML file into a
    `map[string]interface{}` and validates non-emptiness;
  * `createDirs` — recursively materializes that mapping as directories,
    producing a list of human-readable log lines;
  * `countTotalDirectories` — counts the entries of the mapping;
  * the summary computation in `main`, which counts substrings of the
    joined log text.

Modelling choices:
  * Go's dynamically typed `interface{}` values (as produced by
    `json.Unmarshal` / `yaml.Unmarshal` into `map[string]interface{}`)
    are embedded as the mutual inductive `GoVal`/`GoList`/`GoMap`;
    a `GoMap` is an association list standing for a Go map, iterated in
    list order (Go map iteration order is unspecified).
  * The filesystem is the external collaborator of the spec: it is
    embedded as the set of existing directory paths plus a fixed fault
    oracle `errOf` assigning to some paths a creation error
    (permission denied or another I/O error).  `os.MkdirAll` is embedded
    as `mkdirAll`: when the path is already a directory it does nothing
    and returns nil (as `os.MkdirAll` documents), otherwise it consults
    the oracle, otherwise it creates the path.  The source's
    `os.IsExist` branch is kept in the embedding, but `mkdirAll` never
    produces that outcome: an EEXIST error would need a non-directory
    occupying the path, which this directory-only filesystem cannot
    represent.  Every call is recorded in `attempts`.
  * `filepath.Join(base, name)` is embedded as `base ++ "/" ++ name`
    (the `Clean` normalization pass of `filepath.Join` is not modelled;
    `base` is never empty where `pathJoin` is used).
  * `os.Stat`/`os.IsNotExist` on a path is embedded as membership of the
    path in the set of existing directories.
  * Log lines keep the exact format strings of the source; `render`
    produces the Go string of a `LogEntry`.
-/

namespace DirTree

mutual
/-- Embedded Go `interface{}` value as decoded from JSON/YAML. -/
inductive GoVal where
  | null
  | str (s : String)
  | num (n : Int)
  | arr (xs : GoList)
  | map (m : GoMap)
  deriving Repr, DecidableEq

/-- Embedded Go `[]interface{}`. -/
inductive GoList where
  | nil
  | cons (v : GoVal) (rest : GoList)
  deriving Repr, DecidableEq

/-- Embedded Go `map[string]interface{}` (association list; Go map
iteration order is unspecified, the embedding fixes the list order). -/
inductive GoMap where
  | nil
  | cons (name : String) (v : GoVal) (rest : GoMap)
  deriving Repr, DecidableEq
end

/-- Error kinds the fault oracle can assign to a path, mirroring the
error classes the source distinguishes via `os.IsPermission` and the
final `else` of the error analysis in `createDirs`. -/
inductive ErrKind where
  | permission
  | other (reason : String)
  deriving Repr, DecidableEq

/-- Outcome of one `os.MkdirAll` call, as classified by the source via
`err == nil`, `os.IsPermission(err)`, `os.IsExist(err)`, else. -/
inductive MkdirOutcome where
  | ok
  | exist
  | permission
  | otherErr (reason : String)
  deriving Repr, DecidableEq

/-- The modelled filesystem: the set of existing directories, plus the
trace of every path handed to `os.MkdirAll` (so that "no directory under
it is attempted" is expressible). -/
structure FS where
  dirs : List String
  attempts : List String
  deriving Repr, DecidableEq

/-- Embedded `os.MkdirAll`: when the path is already a directory it
does nothing and returns nil (success), otherwise it fails as dictated
by the fault oracle `errOf`, otherwise it creates the path.  The
attempt is always recorded.  The `exist` outcome is never produced:
it would require a non-directory occupying the path, which this
directory-only model cannot represent. -/
def mkdirAll (errOf : String → Option ErrKind) (fs : FS) (p : String) :
    MkdirOutcome × FS :=
  let fsA : FS := { fs with attempts := fs.attempts ++ [p] }
  if p ∈ fs.dirs then (.ok, fsA)
  else
    match errOf p with
    | some .permission => (.permission, fsA)
    | some (.other r) => (.otherErr r, fsA)
    | none => (.ok, { fsA with dirs := p :: fsA.dirs })

/-- Embedded `strings.ContainsAny(s, "<>:\"|?*")`. -/
def hasIllegalChars (s : String) : Bool :=
  s.data.any fun c => ['<', '>', ':', '"', '|', '?', '*'].contains c

/-- Embedded `filepath.Join(base, name)` (see header: no `Clean`). -/
def pathJoin (base name : String) : String := base ++ "/" ++ name

/-- UTF-8 byte count of a character (Go strings are UTF-8, and Go's
`len` on a string counts bytes). -/
def charUtf8Len (c : Char) : Nat :=
  if c.toNat < 128 then 1
  else if c.toNat < 2048 then 2
  else if c.toNat < 65536 then 3
  else 4

/-- Embedded Go `len(s)` for a string: its UTF-8 byte count. -/
def goLen (s : String) : Nat := (s.data.map charUtf8Len).sum

/-- One log line of `createDirs`, one constructor per format string of
the source; `render` recovers the exact Go string. -/
inductive LogEntry where
  | emptyRootPath
  | rootMissing (basePath : String)
  | rootCreateFailed (basePath : String) (reason : String)
  | rootCreated (basePath : String)
  | skippedEmptyName
  | prefixApplied (name finalName : String)
  | skippedIllegalChars (finalName : String)
  | skippedPathTooLong (fullPath : String)
  | alreadyExists (fullPath : String)
  | permissionDenied (fullPath : String)
  | otherError (fullPath : String) (reason : String)
  | created (fullPath : String)
  deriving Repr, DecidableEq

/-- Log entry for the branch `createDirs` takes after `os.MkdirAll`:
success logs the created line, `os.IsExist` logs the already-exists
line, `os.IsPermission` and the final `else` log the corresponding
failure message. -/
def outcomeEntry (o : MkdirOutcome) (fullPath : String) : LogEntry :=
  match o with
  | .ok => .created fullPath
  | .exist => .alreadyExists fullPath
  | .permission => .permissionDenied fullPath
  | .otherErr reason => .otherError fullPath reason

/-- The final directory name of one loop iteration: the prefix is
prepended exactly when `enablePrefix && prefix != ""`. -/
def finalNameOf (ep : Bool) (pre dir : String) : String :=
  if ep && (pre != "") then pre ++ dir else dir

/-- The `PrefixApplied` log line of one loop iteration (emitted exactly
when the prefix is applied). -/
def preLogsOf (ep : Bool) (pre dir : String) : List LogEntry :=
  if ep && (pre != "") then [.prefixApplied dir (finalNameOf ep pre dir)] else []

/-- Result of the preamble of `createDirs` (the `basePath` guard and the
create-the-root-if-missing step): either the call returns immediately
with the given logs, or it proceeds to the `for` loop with the given
logs already emitted. -/
inductive RootPhase where
  | abort (logs : List LogEntry) (fs : FS)
  | proceed (logs : List LogEntry) (fs : FS)
  deriving Repr, DecidableEq

/-- The preamble of `createDirs`: return `EmptyRootPath` if `basePath`
is empty; if `basePath` does not exist, warn and attempt to create it,
returning on failure and logging success otherwise. -/
def rootCheck (errOf : String → Option ErrKind) (fs : FS)
    (basePath : String) : RootPhase :=
  if basePath = "" then .abort [.emptyRootPath] fs
  else if basePath ∈ fs.dirs then .proceed [] fs
  else
    match mkdirAll errOf fs basePath with
    | (.ok, fs1) =>
        .proceed [.rootMissing basePath, .rootCreated basePath] fs1
    | (.exist, fs1) =>
        .abort [.rootMissing basePath, .rootCreateFailed basePath "file exists"] fs1
    | (.permission, fs1) =>
        .abort [.rootMissing basePath, .rootCreateFailed basePath "permission denied"] fs1
    | (.otherErr reason, fs1) =>
        .abort [.rootMissing basePath, .rootCreateFailed basePath reason] fs1

mutual
/-- The `for dir, subDirs := range structure` loop of `createDirs`.
The loop body is written inline (see `processItem` below for the same
body as a standalone definition); in the source, the `os.IsExist`
branch recurses into the children and `continue`s, while the success,
permission and other-error branches fall through to the common
recursion block at the end of the loop body — in all four cases the
observable effect is: emit the branch's log entry (`outcomeEntry`),
then recurse into the children (when the value is a non-nil map) with
`fullPath` as the new base. -/
def createLoop (errOf : String → Option ErrKind) (fs : FS)
    (basePath : String) (st : GoMap) (ep : Bool) (pre : String)
    (win : Bool) : List LogEntry × FS :=
  match st with
  | .nil => ([], fs)
  | .cons dir sub rest =>
      let r1 :=
        if dir = "" then ([LogEntry.skippedEmptyName], fs)
        else
          let finalDirName := finalNameOf ep pre dir
          let preLogs := preLogsOf ep pre dir
          if hasIllegalChars finalDirName then
            (preLogs ++ [.skippedIllegalChars finalDirName], fs)
          else
            let fullPath := pathJoin basePath finalDirName
            if win && decide (goLen fullPath > 260) then
              (preLogs ++ [.skippedPathTooLong fullPath], fs)
            else
              let mr := mkdirAll errOf fs fullPath
              let rc := descend errOf mr.2 fullPath sub ep pre win
              (preLogs ++ [outcomeEntry mr.1 fullPath] ++ rc.1, rc.2)
      let r2 := createLoop errOf r1.2 basePath rest ep pre win
      (r1.1 ++ r2.1, r2.2)
termination_by structural st

/-- The conditional recursion of the loop body: when the child value
type-asserts to a non-nil `map[string]interface{}`, the source calls
`createDirs(fullPath, subDirsMap, enablePrefix, prefix)`; a non-map
child value is silently ignored.  The map branch spells out the body of
`createDirs` (`rootCheck` preamble, then the loop); `descend_eq_createDirs`
below records that it coincides with `createDirs`. -/
def descend (errOf : String → Option ErrKind) (fs : FS)
    (fullPath : String) (sub : GoVal) (ep : Bool) (pre : String)
    (win : Bool) : List LogEntry × FS :=
  match sub with
  | .map m =>
      match rootCheck errOf fs fullPath with
      | .abort logs fs1 => (logs, fs1)
      | .proceed logs fs1 =>
          let r := createLoop errOf fs1 fullPath m ep pre win
          (logs ++ r.1, r.2)
  | _ => ([], fs)
termination_by structural sub
end

/-- Embedded `createDirs(basePath, structure, enablePrefix, prefix)`:
the `rootCheck` preamble followed by the `for` loop.  `win` embeds
`runtime.GOOS == "windows"`.  Returns the produced log lines and the
filesystem after the call. -/
def createDirs (errOf : String → Option ErrKind) (fs : FS)
    (basePath : String) (st : GoMap) (ep : Bool) (pre : String)
    (win : Bool) : List LogEntry × FS :=
  match rootCheck errOf fs basePath with
  | .abort logs fs1 => (logs, fs1)
  | .proceed logs fs1 =>
      let r := createLoop errOf fs1 basePath st ep pre win
      (logs ++ r.1, r.2)

/-- The body of the `createDirs` loop for one `(dir, subDirs)` pair,
exactly as inlined in `createLoop` (see `createLoop_cons`). -/
def processItem (errOf : String → Option ErrKind) (fs : FS)
    (basePath dir : String) (sub : GoVal) (ep : Bool) (pre : String)
    (win : Bool) : List LogEntry × FS :=
  if dir = "" then ([LogEntry.skippedEmptyName], fs)
  else
    let finalDirName := finalNameOf ep pre dir
    let preLogs := preLogsOf ep pre dir
    if hasIllegalChars finalDirName then
      (preLogs ++ [.skippedIllegalChars finalDirName], fs)
    else
      let fullPath := pathJoin basePath finalDirName
      if win && decide (goLen fullPath > 260) then
        (preLogs ++ [.skippedPathTooLong fullPath], fs)
      else
        let mr := mkdirAll errOf fs fullPath
        let rc := descend errOf mr.2 fullPath sub ep pre win
        (preLogs ++ [outcomeEntry mr.1 fullPath] ++ rc.1, rc.2)

mutual
/-- Embedded `countTotalDirectories(structure)`. -/
def countTotalDirectories : GoMap → Nat
  | .nil => 0
  | .cons _ sub rest => 1 + countSubDirs sub + countTotalDirectories rest

/-- The contribution of one value: the source recurses exactly when the
value type-asserts to a non-nil `map[string]interface{}`. -/
def countSubDirs : GoVal → Nat
  | .map m => countTotalDirectories m
  | _ => 0
end

/-- Failure classification of `parseStructureFromFile`. -/
inductive ParseErr where
  | fileEmpty
  | decodeError (format msg : String)
  | unsupportedFormat (ext : String)
  | emptyStructure
  deriving Repr, DecidableEq

/-- Embedded semantics of `json.Unmarshal(data, &structure)` /
`yaml.Unmarshal(data, &structure)` for `structure : map[string]interface{}`,
at the level of the decoded document value: a document whose top level is
an object yields that object (its nested values of any shape are accepted
unchanged), a `null` document yields the nil (empty) map, and any other
top-level value is a type error.  The decoders are external library code;
this captures the semantics the program relies on. -/
def unmarshalObj : GoVal → Except String GoMap
  | .map m => .ok m
  | .null => .ok .nil
  | _ => .error "cannot unmarshal value into map[string]interface{}"

/-- Embedded `len(structure)` for the decoded map. -/
def goMapLen : GoMap → Nat
  | .nil => 0
  | .cons _ _ rest => 1 + goMapLen rest

/-- Embedded `parseStructureFromFile`.  `ext` is the lower-cased file
extension, `raw` the file contents, and `doc` the document value that
`raw` denotes (the byte-level JSON/YAML syntax is external; syntactically
malformed input is outside this embedding).  The file-existence and
read-error checks concern the external reader and are not modelled. -/
def parseStructureFromFile (ext : String) (raw : String) (doc : GoVal) :
    Except ParseErr GoMap :=
  if raw.length = 0 then .error .fileEmpty
  else if ext = ".json" then
    match unmarshalObj doc with
    | .error msg => .error (.decodeError "JSON" msg)
    | .ok st =>
        if goMapLen st = 0 then .error .emptyStructure else .ok st
  else if ext = ".yaml" || ext = ".yml" then
    match unmarshalObj doc with
    | .error msg => .error (.decodeError "YAML" msg)
    | .ok st =>
        if goMapLen st = 0 then .error .emptyStructure else .ok st
  else .error (.unsupportedFormat ext)

/-- Exact Go string of a log entry (the format strings of the source). -/
def render : LogEntry → String
  | .emptyRootPath => "错误：目标路径为空，无法创建目录\n"
  | .rootMissing b => "警告：目标路径不存在，将尝试创建：" ++ b ++ "\n"
  | .rootCreateFailed b r =>
      "错误：无法创建目标路径 " ++ b ++ "\n原因：" ++ r ++ "\n"
  | .rootCreated b => "成功：已创建目标路径 " ++ b ++ "\n"
  | .skippedEmptyName => "跳过：发现空的目录名称\n"
  | .prefixApplied n f => "应用前缀：\"" ++ n ++ "\" -> \"" ++ f ++ "\"\n"
  | .skippedIllegalChars f => "跳过：目录名包含非法字符 \"" ++ f ++ "\"\n"
  | .skippedPathTooLong p => "跳过：路径过长（超过260字符）\"" ++ p ++ "\"\n"
  | .alreadyExists p => "目录已存在：" ++ p ++ "\n"
  | .permissionDenied p =>
      "创建目录失败：" ++ p ++ "\n原因：权限不足，请检查是否有写入权限\n"
  | .otherError p r => "创建目录失败：" ++ p ++ "\n原因：" ++ r ++ "\n"
  | .created p => "✓ 成功创建：" ++ p ++ "\n"

/-- Embedded `strings.Join(logMessages, "")`. -/
def joinLogs (logs : List LogEntry) : String :=
  String.join (logs.map render)

/-- Helper for `goCount`: counts non-overlapping occurrences of the
non-empty pattern, with `skip` characters still to be skipped after a
previous match. -/
def goCountAux (pat : List Char) : List Char → Nat → Nat
  | [], _ => 0
  | c :: rest, 0 =>
      if pat.isPrefixOf (c :: rest) then
        1 + goCountAux pat rest (pat.length - 1)
      else goCountAux pat rest 0
  | _ :: rest, skip + 1 => goCountAux pat rest skip

/-- Embedded `strings.Count(s, pat)`: the number of non-overlapping
instances of `pat` in `s` (for empty `pat`, 1 + the rune length). -/
def goCount (s pat : String) : Nat :=
  if pat.data = [] then s.data.length + 1
  else goCountAux pat.data s.data 0

/-- Embedded summary computation of `main`:
`successCount := strings.Count(allLogs, "✓ 成功创建")` and
`errorCount := strings.Count(allLogs, "错误：") + strings.Count(allLogs, "跳过：")`. -/
def summaryCounts (allLogs : String) : Nat × Nat :=
  (goCount allLogs "✓ 成功创建",
   goCount allLogs "错误：" + goCount allLogs "跳过：")

/-! Specification-side definitions used to state the claims. -/

mutual
/-- The list of all `(name, children)` pairs of a structure, at every
depth (spec wording for the expected total of `countTotalDirectories`). -/
def allPairsMap : GoMap → List (String × GoVal)
  | .nil => []
  | .cons dir sub rest => (dir, sub) :: (allPairsVal sub ++ allPairsMap rest)
termination_by structural m => m

/-- Pairs contributed below one child value: only a map has pairs. -/
def allPairsVal : GoVal → List (String × GoVal)
  | .map m => allPairsMap m
  | _ => []
termination_by structural v => v
end

mutual
/-- Renames every directory name at every depth with `f`
(used to state the prefix-uniformity claim). -/
def renameMap (f : String → String) : GoMap → GoMap
  | .nil => .nil
  | .cons dir sub rest => .cons (f dir) (renameVal f sub) (renameMap f rest)
termination_by structural m => m

/-- Renaming descends only into map values. -/
def renameVal (f : String → String) : GoVal → GoVal
  | .map m => .map (renameMap f m)
  | v => v
termination_by structural v => v
end

mutual
/-- True when no directory name at any depth is empty (the spec's
invariant that `DirectoryTree` keys are non-empty). -/
def noEmptyMap : GoMap → Bool
  | .nil => true
  | .cons dir sub rest => (dir != "") && noEmptyVal sub && noEmptyMap rest
termination_by structural m => m

/-- Child-value side of `noEmptyMap`. -/
def noEmptyVal : GoVal → Bool
  | .map m => noEmptyMap m
  | _ => true
termination_by structural v => v
end

/-- True for a child value that is neither a mapping nor null
(a string, number or list). -/
def isScalarVal : GoVal → Bool
  | .str _ => true
  | .num _ => true
  | .arr _ => true
  | _ => false

/-- True exactly for the informational `PrefixApplied` entries. -/
def isPrefixLog : LogEntry → Bool
  | .prefixApplied _ _ => true
  | _ => false

/-- The filesystem path an entry refers to, when it refers to one
(`SkippedEmptyName`, `PrefixApplied`, `SkippedIllegalChars` and
`EmptyRootPath` carry no filesystem path, only — at most — a name). -/
def entryPath : LogEntry → Option String
  | .emptyRootPath => none
  | .rootMissing b => some b
  | .rootCreateFailed b _ => some b
  | .rootCreated b => some b
  | .skippedEmptyName => none
  | .prefixApplied _ _ => none
  | .skippedIllegalChars _ => none
  | .skippedPathTooLong p => some p
  | .alreadyExists p => some p
  | .permissionDenied p => some p
  | .otherError p _ => some p
  | .created p => some p

/-- True when `q` is a path strictly under directory path `p`
(that is, `q` extends `p` past a path separator). -/
def isUnder (p q : String) : Bool :=
  (p ++ "/").data.isPrefixOf q.data

/-- The failure entry the loop body emits when `os.MkdirAll` fails with
the given error kind. -/
def failEntry (k : ErrKind) (fullPath : String) : LogEntry :=
  match k with
  | .permission => .permissionDenied fullPath
  | .other reason => .otherError fullPath reason

/-- The reason text `%v` renders for an error of the given kind in the
root-creation failure line. -/
def reasonOf : ErrKind → String
  | .permission => "permission denied"
  | .other reason => reason

/-- The `MkdirOutcome` produced by a creation attempt that fails with
the given oracle error. -/
def failOutcome : ErrKind → MkdirOutcome
  | .permission => .permission
  | .other reason => .otherErr reason


/-! Basic unfolding lemmas. -/

theorem createLoop_nil (errOf : String → Option ErrKind) (fs : FS)
    (b : String) (ep : Bool) (pre : String) (win : Bool) :
    createLoop errOf fs b .nil ep pre win = ([], fs) := rfl

theorem createLoop_cons (errOf : String → Option ErrKind) (fs : FS)
    (b dir : String) (sub : GoVal) (rest : GoMap) (ep : Bool)
    (pre : String) (win : Bool) :
    createLoop errOf fs b (.cons dir sub rest) ep pre win =
      ((processItem errOf fs b dir sub ep pre win).1
         ++ (createLoop errOf (processItem errOf fs b dir sub ep pre win).2
               b rest ep pre win).1,
       (createLoop errOf (processItem errOf fs b dir sub ep pre win).2
          b rest ep pre win).2) := rfl

theorem descend_eq_createDirs (errOf : String → Option ErrKind) (fs : FS)
    (p : String) (m : GoMap) (ep : Bool) (pre : String) (win : Bool) :
    descend errOf fs p (.map m) ep pre win =
      createDirs errOf fs p m ep pre win := rfl

theorem createDirs_abort (errOf : String → Option ErrKind) (fs : FS)
    (b : String) (st : GoMap) (ep : Bool) (pre : String) (win : Bool)
    (logs : List LogEntry) (fs1 : FS)
    (h : rootCheck errOf fs b = .abort logs fs1) :
    createDirs errOf fs b st ep pre win = (logs, fs1) := by
  unfold createDirs
  rw [h]

theorem createDirs_proceed (errOf : String → Option ErrKind) (fs : FS)
    (b : String) (st : GoMap) (ep : Bool) (pre : String) (win : Bool)
    (logs : List LogEntry) (fs1 : FS)
    (h : rootCheck errOf fs b = .proceed logs fs1) :
    createDirs errOf fs b st ep pre win =
      (logs ++ (createLoop errOf fs1 b st ep pre win).1,
       (createLoop errOf fs1 b st ep pre win).2) := by
  unfold createDirs
  rw [h]

theorem mkdirAll_mem (errOf : String → Option ErrKind) (fs : FS) (p : String)
    (h : p ∈ fs.dirs) :
    mkdirAll errOf fs p = (.ok, ⟨fs.dirs, fs.attempts ++ [p]⟩) := by
  simp [mkdirAll, h]

theorem mkdirAll_perm (errOf : String → Option ErrKind) (fs : FS) (p : String)
    (h : p ∉ fs.dirs) (h2 : errOf p = some .permission) :
    mkdirAll errOf fs p = (.permission, ⟨fs.dirs, fs.attempts ++ [p]⟩) := by
  simp [mkdirAll, h, h2]

theorem mkdirAll_other (errOf : String → Option ErrKind) (fs : FS)
    (p r : String) (h : p ∉ fs.dirs) (h2 : errOf p = some (.other r)) :
    mkdirAll errOf fs p = (.otherErr r, ⟨fs.dirs, fs.attempts ++ [p]⟩) := by
  simp [mkdirAll, h, h2]

theorem mkdirAll_ok (errOf : String → Option ErrKind) (fs : FS) (p : String)
    (h : p ∉ fs.dirs) (h2 : errOf p = none) :
    mkdirAll errOf fs p = (.ok, ⟨p :: fs.dirs, fs.attempts ++ [p]⟩) := by
  simp [mkdirAll, h, h2]

theorem mkdirAll_dirs_mono (errOf : String → Option ErrKind) (fs : FS)
    (p : String) : fs.dirs ⊆ (mkdirAll errOf fs p).2.dirs := by
  by_cases h : p ∈ fs.dirs
  · rw [mkdirAll_mem errOf fs p h]
    exact fun x hx => hx
  · cases h2 : errOf p with
    | none => rw [mkdirAll_ok errOf fs p h h2]; exact List.subset_cons_self _ _
    | some k =>
        cases k with
        | permission =>
            rw [mkdirAll_perm errOf fs p h h2]
            exact fun x hx => hx
        | other r =>
            rw [mkdirAll_other errOf fs p r h h2]
            exact fun x hx => hx

theorem rootCheck_emptyPath (errOf : String → Option ErrKind) (fs : FS) :
    rootCheck errOf fs "" = .abort [.emptyRootPath] fs := rfl

theorem rootCheck_mem (errOf : String → Option ErrKind) (fs : FS)
    (b : String) (h0 : b ≠ "") (h : b ∈ fs.dirs) :
    rootCheck errOf fs b = .proceed [] fs := by
  simp [rootCheck, h0, h]

theorem rootCheck_create (errOf : String → Option ErrKind) (fs : FS)
    (b : String) (h0 : b ≠ "") (h : b ∉ fs.dirs) (h2 : errOf b = none) :
    rootCheck errOf fs b =
      .proceed [.rootMissing b, .rootCreated b]
        ⟨b :: fs.dirs, fs.attempts ++ [b]⟩ := by
  simp [rootCheck, h0, h, mkdirAll_ok errOf fs b h h2]

theorem rootCheck_permFail (errOf : String → Option ErrKind) (fs : FS)
    (b : String) (h0 : b ≠ "") (h : b ∉ fs.dirs)
    (h2 : errOf b = some .permission) :
    rootCheck errOf fs b =
      .abort [.rootMissing b, .rootCreateFailed b "permission denied"]
        ⟨fs.dirs, fs.attempts ++ [b]⟩ := by
  simp [rootCheck, h0, h, mkdirAll_perm errOf fs b h h2]

theorem rootCheck_otherFail (errOf : String → Option ErrKind) (fs : FS)
    (b r : String) (h0 : b ≠ "") (h : b ∉ fs.dirs)
    (h2 : errOf b = some (.other r)) :
    rootCheck errOf fs b =
      .abort [.rootMissing b, .rootCreateFailed b r]
        ⟨fs.dirs, fs.attempts ++ [b]⟩ := by
  simp [rootCheck, h0, h, mkdirAll_other errOf fs b r h h2]


theorem pathJoin_ne_empty (b n : String) : pathJoin b n ≠ "" := by
  intro h
  have hd : (pathJoin b n).data = [] := by rw [h]
  simp [pathJoin, String.data_append] at hd

theorem isUnder_self (p : String) : isUnder p p = false := by
  by_contra h
  have h1 : (p ++ "/").data.isPrefixOf p.data = true := by
    simpa [isUnder] using h
  have h2 : (p ++ "/").data <+: p.data := by
    exact List.isPrefixOf_iff_prefix.mp h1
  have h3 : (p ++ "/").data.length ≤ p.data.length := h2.length_le
  simp [String.data_append] at h3

/-! Monotonicity of the run over the set of existing directories. -/

mutual
theorem createLoop_dirs_mono (errOf : String → Option ErrKind) (fs : FS)
    (b : String) (st : GoMap) (ep : Bool) (pre : String) (win : Bool) :
    fs.dirs ⊆ (createLoop errOf fs b st ep pre win).2.dirs := by
  cases st with
  | nil => exact fun x hx => hx
  | cons dir sub rest =>
      have h1 : fs.dirs ⊆ (processItem errOf fs b dir sub ep pre win).2.dirs := by
        unfold processItem
        by_cases hd : dir = ""
        · simp only [if_pos hd]
          exact fun x hx => hx
        · simp only [if_neg hd]
          by_cases hil : hasIllegalChars (finalNameOf ep pre dir) = true
          · simp only [hil, if_pos]
            exact fun x hx => hx
          · simp only [eq_self_iff_true, Bool.not_eq_true] at hil
            simp only [hil, Bool.false_eq_true, if_false]
            by_cases hlen :
                (win && decide (goLen (pathJoin b (finalNameOf ep pre dir)) > 260)) = true
            · simp only [hlen, if_pos]
              exact fun x hx => hx
            · simp only [Bool.not_eq_true] at hlen
              simp only [hlen, Bool.false_eq_true, if_false]
              exact (mkdirAll_dirs_mono errOf fs _).trans
                (descend_dirs_mono errOf _ _ sub ep pre win)
      rw [createLoop_cons]
      exact h1.trans (createLoop_dirs_mono errOf _ b rest ep pre win)
termination_by structural st

theorem descend_dirs_mono (errOf : String → Option ErrKind) (fs : FS)
    (p : String) (sub : GoVal) (ep : Bool) (pre : String) (win : Bool) :
    fs.dirs ⊆ (descend errOf fs p sub ep pre win).2.dirs := by
  cases sub with
  | map m =>
      show fs.dirs ⊆ (createDirs errOf fs p m ep pre win).2.dirs
      unfold createDirs
      by_cases h0 : p = ""
      · subst h0
        rw [rootCheck_emptyPath]
        exact fun x hx => hx
      · by_cases hmem : p ∈ fs.dirs
        · rw [rootCheck_mem errOf fs p h0 hmem]
          exact createLoop_dirs_mono errOf fs p m ep pre win
        · cases h2 : errOf p with
          | none =>
              rw [rootCheck_create errOf fs p h0 hmem h2]
              exact (List.subset_cons_self p fs.dirs).trans
                (createLoop_dirs_mono errOf
                  ⟨p :: fs.dirs, fs.attempts ++ [p]⟩ p m ep pre win)
          | some k =>
              cases k with
              | permission =>
                  rw [rootCheck_permFail errOf fs p h0 hmem h2]
                  exact fun x hx => hx
              | other r =>
                  rw [rootCheck_otherFail errOf fs p r h0 hmem h2]
                  exact fun x hx => hx
  | null => exact fun x hx => hx
  | str s => exact fun x hx => hx
  | num n => exact fun x hx => hx
  | arr xs => exact fun x hx => hx
termination_by structural sub
end

theorem processItem_dirs_mono (errOf : String → Option ErrKind) (fs : FS)
    (b dir : String) (sub : GoVal) (ep : Bool) (pre : String) (win : Bool) :
    fs.dirs ⊆ (processItem errOf fs b dir sub ep pre win).2.dirs := by
  have h := createLoop_dirs_mono errOf fs b (.cons dir sub .nil) ep pre win
  rw [createLoop_cons] at h
  simpa using h

theorem createDirs_dirs_mono (errOf : String → Option ErrKind) (fs : FS)
    (b : String) (st : GoMap) (ep : Bool) (pre : String) (win : Bool) :
    fs.dirs ⊆ (createDirs errOf fs b st ep pre win).2.dirs :=
  descend_dirs_mono errOf fs b (.map st) ep pre win


/-- Unfolding of the loop body: the guards, the creation attempt, and
the conditional recursion, with all `let`s spelled out. -/
theorem processItem_eq (errOf : String → Option ErrKind) (fs : FS)
    (b dir : String) (sub : GoVal) (ep : Bool) (pre : String) (win : Bool) :
    processItem errOf fs b dir sub ep pre win =
      if dir = "" then ([LogEntry.skippedEmptyName], fs)
      else if hasIllegalChars (finalNameOf ep pre dir) then
        (preLogsOf ep pre dir
           ++ [.skippedIllegalChars (finalNameOf ep pre dir)], fs)
      else if win && decide (goLen (pathJoin b (finalNameOf ep pre dir)) > 260) then
        (preLogsOf ep pre dir
           ++ [.skippedPathTooLong (pathJoin b (finalNameOf ep pre dir))], fs)
      else
        (preLogsOf ep pre dir
           ++ [outcomeEntry (mkdirAll errOf fs (pathJoin b (finalNameOf ep pre dir))).1
                 (pathJoin b (finalNameOf ep pre dir))]
           ++ (descend errOf (mkdirAll errOf fs (pathJoin b (finalNameOf ep pre dir))).2
                 (pathJoin b (finalNameOf ep pre dir)) sub ep pre win).1,
         (descend errOf (mkdirAll errOf fs (pathJoin b (finalNameOf ep pre dir))).2
            (pathJoin b (finalNameOf ep pre dir)) sub ep pre win).2) := rfl

theorem mem_preLogsOf (ep : Bool) (pre dir : String) (e : LogEntry)
    (h : e ∈ preLogsOf ep pre dir) :
    e = .prefixApplied dir (finalNameOf ep pre dir) := by
  by_cases hp : (ep && (pre != "")) = true
  · simpa [preLogsOf, hp] using h
  · rw [Bool.not_eq_true] at hp
    simp [preLogsOf, hp] at h

theorem created_not_mem_preLogsOf (ep : Bool) (pre dir p : String) :
    LogEntry.created p ∉ preLogsOf ep pre dir := by
  intro h
  exact LogEntry.noConfusion (mem_preLogsOf ep pre dir _ h)

theorem outcomeEntry_eq_created_iff (o : MkdirOutcome) (fp p : String) :
    outcomeEntry o fp = .created p ↔ o = .ok ∧ p = fp := by
  cases o <;> simp [outcomeEntry, eq_comm]

theorem mkdirAll_ok_mem (errOf : String → Option ErrKind) (fs : FS)
    (p : String) (h : (mkdirAll errOf fs p).1 = .ok) :
    p ∈ (mkdirAll errOf fs p).2.dirs := by
  by_cases hm : p ∈ fs.dirs
  · rw [mkdirAll_mem errOf fs p hm]
    exact hm
  · cases h2 : errOf p with
    | none =>
        rw [mkdirAll_ok errOf fs p hm h2]
        exact List.mem_cons_self _ _
    | some k =>
        cases k with
        | permission =>
            rw [mkdirAll_perm errOf fs p hm h2] at h
            exact absurd h (by simp)
        | other r =>
            rw [mkdirAll_other errOf fs p r hm h2] at h
            exact absurd h (by simp)

theorem rootCheck_shape (errOf : String → Option ErrKind) (fs : FS)
    (b : String) :
    (b = "" ∧ rootCheck errOf fs b = .abort [.emptyRootPath] fs)
    ∨ (b ≠ "" ∧ b ∈ fs.dirs ∧ rootCheck errOf fs b = .proceed [] fs)
    ∨ (b ≠ "" ∧ b ∉ fs.dirs ∧
        rootCheck errOf fs b =
          .proceed [.rootMissing b, .rootCreated b]
            ⟨b :: fs.dirs, fs.attempts ++ [b]⟩)
    ∨ (b ≠ "" ∧ b ∉ fs.dirs ∧ ∃ reason,
        rootCheck errOf fs b =
          .abort [.rootMissing b, .rootCreateFailed b reason]
            ⟨fs.dirs, fs.attempts ++ [b]⟩) := by
  by_cases h0 : b = ""
  · exact Or.inl ⟨h0, by rw [h0, rootCheck_emptyPath]⟩
  · by_cases hm : b ∈ fs.dirs
    · exact Or.inr (Or.inl ⟨h0, hm, rootCheck_mem errOf fs b h0 hm⟩)
    · cases h2 : errOf b with
      | none =>
          exact Or.inr (Or.inr (Or.inl
            ⟨h0, hm, rootCheck_create errOf fs b h0 hm h2⟩))
      | some k =>
          cases k with
          | permission =>
              exact Or.inr (Or.inr (Or.inr ⟨h0, hm,
                ⟨"permission denied", rootCheck_permFail errOf fs b h0 hm h2⟩⟩))
          | other r =>
              exact Or.inr (Or.inr (Or.inr ⟨h0, hm,
                ⟨r, rootCheck_otherFail errOf fs b r h0 hm h2⟩⟩))


/-- Case enumeration for the loop body: empty name, illegal characters,
path too long, or the creation attempt followed by the conditional
recursion. -/
theorem processItem_shape (errOf : String → Option ErrKind) (fs : FS)
    (b dir : String) (sub : GoVal) (ep : Bool) (pre : String) (win : Bool) :
    (dir = "" ∧
      processItem errOf fs b dir sub ep pre win = ([.skippedEmptyName], fs))
    ∨ (dir ≠ "" ∧ hasIllegalChars (finalNameOf ep pre dir) = true ∧
        processItem errOf fs b dir sub ep pre win =
          (preLogsOf ep pre dir
             ++ [.skippedIllegalChars (finalNameOf ep pre dir)], fs))
    ∨ (dir ≠ "" ∧ hasIllegalChars (finalNameOf ep pre dir) = false ∧
        (win && decide (goLen (pathJoin b (finalNameOf ep pre dir)) > 260)) = true ∧
        processItem errOf fs b dir sub ep pre win =
          (preLogsOf ep pre dir
             ++ [.skippedPathTooLong (pathJoin b (finalNameOf ep pre dir))], fs))
    ∨ (dir ≠ "" ∧ hasIllegalChars (finalNameOf ep pre dir) = false ∧
        (win && decide (goLen (pathJoin b (finalNameOf ep pre dir)) > 260)) = false ∧
        processItem errOf fs b dir sub ep pre win =
          (preLogsOf ep pre dir
             ++ [outcomeEntry
                   (mkdirAll errOf fs (pathJoin b (finalNameOf ep pre dir))).1
                   (pathJoin b (finalNameOf ep pre dir))]
             ++ (descend errOf
                   (mkdirAll errOf fs (pathJoin b (finalNameOf ep pre dir))).2
                   (pathJoin b (finalNameOf ep pre dir)) sub ep pre win).1,
           (descend errOf
              (mkdirAll errOf fs (pathJoin b (finalNameOf ep pre dir))).2
              (pathJoin b (finalNameOf ep pre dir)) sub ep pre win).2)) := by
  by_cases hd : dir = ""
  · exact Or.inl ⟨hd, by rw [processItem_eq, if_pos hd]⟩
  · by_cases hil : hasIllegalChars (finalNameOf ep pre dir) = true
    · exact Or.inr (Or.inl ⟨hd, hil, by rw [processItem_eq, if_neg hd, if_pos hil]⟩)
    · rw [Bool.not_eq_true] at hil
      by_cases hlen :
          (win && decide (goLen (pathJoin b (finalNameOf ep pre dir)) > 260)) = true
      · refine Or.inr (Or.inr (Or.inl ⟨hd, hil, hlen, ?_⟩))
        rw [processItem_eq, if_neg hd]
        rw [hil]
        simp only [Bool.false_eq_true, if_false]
        rw [if_pos hlen]
      · rw [Bool.not_eq_true] at hlen
        refine Or.inr (Or.inr (Or.inr ⟨hd, hil, hlen, ?_⟩))
        rw [processItem_eq, if_neg hd]
        rw [hil]
        simp only [Bool.false_eq_true, if_false]
        rw [hlen]
        simp only [Bool.false_eq_true, if_false]


theorem createLoop_cons_fst (errOf : String → Option ErrKind) (fs : FS)
    (b dir : String) (sub : GoVal) (rest : GoMap) (ep : Bool)
    (pre : String) (win : Bool) :
    (createLoop errOf fs b (.cons dir sub rest) ep pre win).1 =
      (processItem errOf fs b dir sub ep pre win).1
        ++ (createLoop errOf (processItem errOf fs b dir sub ep pre win).2
              b rest ep pre win).1 := rfl

theorem createLoop_cons_snd (errOf : String → Option ErrKind) (fs : FS)
    (b dir : String) (sub : GoVal) (rest : GoMap) (ep : Bool)
    (pre : String) (win : Bool) :
    (createLoop errOf fs b (.cons dir sub rest) ep pre win).2 =
      (createLoop errOf (processItem errOf fs b dir sub ep pre win).2
         b rest ep pre win).2 := rfl

/-! Created entries name directories that exist afterwards. -/

mutual
theorem createLoop_created_mem (errOf : String → Option ErrKind) (fs : FS)
    (b : String) (st : GoMap) (ep : Bool) (pre : String) (win : Bool)
    (p : String)
    (h : LogEntry.created p ∈ (createLoop errOf fs b st ep pre win).1) :
    p ∈ (createLoop errOf fs b st ep pre win).2.dirs := by
  cases st with
  | nil =>
      rw [createLoop_nil] at h
      exact absurd h (by simp)
  | cons dir sub rest =>
      rw [createLoop_cons_fst] at h
      rw [createLoop_cons_snd]
      rcases List.mem_append.mp h with h1 | h2
      · have hp : p ∈ (processItem errOf fs b dir sub ep pre win).2.dirs := by
          rcases processItem_shape errOf fs b dir sub ep pre win with
            ⟨_, heq⟩ | ⟨_, _, heq⟩ | ⟨_, _, _, heq⟩ | ⟨_, _, _, heq⟩
          · rw [heq] at h1
            exact absurd h1 (by simp)
          · rw [heq] at h1
            exfalso
            rcases List.mem_append.mp h1 with ha | hb
            · exact created_not_mem_preLogsOf _ _ _ _ ha
            · simp at hb
          · rw [heq] at h1
            exfalso
            rcases List.mem_append.mp h1 with ha | hb
            · exact created_not_mem_preLogsOf _ _ _ _ ha
            · simp at hb
          · rw [heq] at h1 ⊢
            rcases List.mem_append.mp h1 with ha | hb
            · rcases List.mem_append.mp ha with ha1 | ha2
              · exact absurd ha1 (created_not_mem_preLogsOf _ _ _ _)
              · have he : outcomeEntry
                    (mkdirAll errOf fs (pathJoin b (finalNameOf ep pre dir))).1
                    (pathJoin b (finalNameOf ep pre dir)) = .created p :=
                  (List.mem_singleton.mp ha2).symm
                obtain ⟨hok, hpfp⟩ := (outcomeEntry_eq_created_iff _ _ _).mp he
                have hmem : p ∈ (mkdirAll errOf fs
                    (pathJoin b (finalNameOf ep pre dir))).2.dirs := by
                  rw [hpfp]
                  exact mkdirAll_ok_mem errOf fs _ hok
                exact descend_dirs_mono errOf _ _ sub ep pre win hmem
            · exact descend_created_mem errOf _ _ sub ep pre win p hb
        exact createLoop_dirs_mono errOf _ b rest ep pre win hp
      · exact createLoop_created_mem errOf _ b rest ep pre win p h2
termination_by structural st

theorem descend_created_mem (errOf : String → Option ErrKind) (fs : FS)
    (p0 : String) (sub : GoVal) (ep : Bool) (pre : String) (win : Bool)
    (p : String)
    (h : LogEntry.created p ∈ (descend errOf fs p0 sub ep pre win).1) :
    p ∈ (descend errOf fs p0 sub ep pre win).2.dirs := by
  cases sub with
  | map m =>
      rw [descend_eq_createDirs] at h ⊢
      rcases rootCheck_shape errOf fs p0 with
        ⟨h0, hr⟩ | ⟨h0, hm, hr⟩ | ⟨h0, hm, hr⟩ | ⟨h0, hm, reason, hr⟩
      · rw [createDirs_abort errOf fs p0 m ep pre win _ _ hr] at h
        exact absurd h (by simp)
      · rw [createDirs_proceed errOf fs p0 m ep pre win _ _ hr] at h ⊢
        have h1 : LogEntry.created p ∈ (createLoop errOf fs p0 m ep pre win).1 := by
          simpa using h
        exact createLoop_created_mem errOf fs p0 m ep pre win p h1
      · rw [createDirs_proceed errOf fs p0 m ep pre win _ _ hr] at h ⊢
        have h1 : LogEntry.created p ∈
            (createLoop errOf ⟨p0 :: fs.dirs, fs.attempts ++ [p0]⟩
              p0 m ep pre win).1 := by
          rcases List.mem_append.mp h with ha | hb
          · exact absurd ha (by simp)
          · exact hb
        exact createLoop_created_mem errOf _ p0 m ep pre win p h1
      · rw [createDirs_abort errOf fs p0 m ep pre win _ _ hr] at h
        exact absurd h (by simp)
  | null => exact absurd h (by simp [descend])
  | str sx => exact absurd h (by simp [descend])
  | num nx => exact absurd h (by simp [descend])
  | arr xs => exact absurd h (by simp [descend])
termination_by structural sub
end

/-- The creation attempt never reports already-exists: for an existing
directory `os.MkdirAll` returns nil, and the oracle only produces
permission/other failures (see `mkdirAll`). -/
theorem mkdirAll_outcomeEntry_ne_exist (errOf : String → Option ErrKind)
    (fs : FS) (p q : String) :
    outcomeEntry (mkdirAll errOf fs p).1 p ≠ LogEntry.alreadyExists q := by
  by_cases hm : p ∈ fs.dirs
  · rw [mkdirAll_mem errOf fs p hm]
    simp [outcomeEntry]
  · cases h2 : errOf p with
    | none =>
        rw [mkdirAll_ok errOf fs p hm h2]
        simp [outcomeEntry]
    | some k =>
        cases k with
        | permission =>
            rw [mkdirAll_perm errOf fs p hm h2]
            simp [outcomeEntry]
        | other r =>
            rw [mkdirAll_other errOf fs p r hm h2]
            simp [outcomeEntry]

/-! No run ever logs an already-exists entry: the source's `os.IsExist`
branch is dead for directories, since `os.MkdirAll` succeeds on them. -/

mutual
theorem createLoop_no_alreadyExists (errOf : String → Option ErrKind)
    (fs : FS) (b : String) (st : GoMap) (ep : Bool) (pre : String)
    (win : Bool) (q : String) :
    LogEntry.alreadyExists q ∉ (createLoop errOf fs b st ep pre win).1 := by
  cases st with
  | nil => simp [createLoop_nil]
  | cons dir sub rest =>
      rw [createLoop_cons_fst]
      intro hmem
      rcases List.mem_append.mp hmem with h1 | h2
      · rcases processItem_shape errOf fs b dir sub ep pre win with
          ⟨_, heq⟩ | ⟨_, _, heq⟩ | ⟨_, _, _, heq⟩ | ⟨_, _, _, heq⟩
        · rw [heq] at h1
          simp at h1
        · rw [heq] at h1
          rcases List.mem_append.mp h1 with ha | hb
          · exact LogEntry.noConfusion (mem_preLogsOf _ _ _ _ ha)
          · simp at hb
        · rw [heq] at h1
          rcases List.mem_append.mp h1 with ha | hb
          · exact LogEntry.noConfusion (mem_preLogsOf _ _ _ _ ha)
          · simp at hb
        · rw [heq] at h1
          rcases List.mem_append.mp h1 with ha | hb
          · rcases List.mem_append.mp ha with ha1 | ha2
            · exact LogEntry.noConfusion (mem_preLogsOf _ _ _ _ ha1)
            · exact mkdirAll_outcomeEntry_ne_exist errOf fs _ q
                (List.mem_singleton.mp ha2).symm
          · exact descend_no_alreadyExists errOf _ _ sub ep pre win q hb
      · exact createLoop_no_alreadyExists errOf _ b rest ep pre win q h2
termination_by structural st

theorem descend_no_alreadyExists (errOf : String → Option ErrKind)
    (fs : FS) (p0 : String) (sub : GoVal) (ep : Bool) (pre : String)
    (win : Bool) (q : String) :
    LogEntry.alreadyExists q ∉ (descend errOf fs p0 sub ep pre win).1 := by
  cases sub with
  | map m =>
      rw [descend_eq_createDirs]
      rcases rootCheck_shape errOf fs p0 with
        ⟨h0, hr⟩ | ⟨h0, hm, hr⟩ | ⟨h0, hm, hr⟩ | ⟨h0, hm, reason, hr⟩
      · rw [createDirs_abort errOf fs p0 m ep pre win _ _ hr]
        simp
      · rw [createDirs_proceed errOf fs p0 m ep pre win _ _ hr]
        intro hmem
        have h1 : LogEntry.alreadyExists q
            ∈ (createLoop errOf fs p0 m ep pre win).1 := by simpa using hmem
        exact createLoop_no_alreadyExists errOf fs p0 m ep pre win q h1
      · rw [createDirs_proceed errOf fs p0 m ep pre win _ _ hr]
        intro hmem
        rcases List.mem_append.mp hmem with ha | hb
        · simp at ha
        · exact createLoop_no_alreadyExists errOf _ p0 m ep pre win q hb
      · rw [createDirs_abort errOf fs p0 m ep pre win _ _ hr]
        simp
  | null => simp [descend]
  | str sx => simp [descend]
  | num nx => simp [descend]
  | arr xs => simp [descend]
termination_by structural sub
end

/-- The loop body when all three guards pass: attempt the creation and
recurse into the children. -/
theorem processItem_final_eq (errOf : String → Option ErrKind) (fs : FS)
    (b dir : String) (sub : GoVal) (ep : Bool) (pre : String) (win : Bool)
    (hd : dir ≠ "") (hil : hasIllegalChars (finalNameOf ep pre dir) = false)
    (hlen : (win && decide (goLen (pathJoin b (finalNameOf ep pre dir)) > 260))
      = false) :
    processItem errOf fs b dir sub ep pre win =
      (preLogsOf ep pre dir
         ++ [outcomeEntry (mkdirAll errOf fs (pathJoin b (finalNameOf ep pre dir))).1
               (pathJoin b (finalNameOf ep pre dir))]
         ++ (descend errOf (mkdirAll errOf fs (pathJoin b (finalNameOf ep pre dir))).2
               (pathJoin b (finalNameOf ep pre dir)) sub ep pre win).1,
       (descend errOf (mkdirAll errOf fs (pathJoin b (finalNameOf ep pre dir))).2
          (pathJoin b (finalNameOf ep pre dir)) sub ep pre win).2) := by
  rw [processItem_eq, if_neg hd, hil]
  simp only [Bool.false_eq_true, if_false]
  rw [hlen]
  simp only [Bool.false_eq_true, if_false]

/-- The loop body when the final name contains a reserved character. -/
theorem processItem_illegal_eq (errOf : String → Option ErrKind) (fs : FS)
    (b dir : String) (sub : GoVal) (ep : Bool) (pre : String) (win : Bool)
    (hd : dir ≠ "") (hil : hasIllegalChars (finalNameOf ep pre dir) = true) :
    processItem errOf fs b dir sub ep pre win =
      (preLogsOf ep pre dir
         ++ [.skippedIllegalChars (finalNameOf ep pre dir)], fs) := by
  rw [processItem_eq, if_neg hd, if_pos hil]

/-- The loop body when the full path exceeds the Windows length limit. -/
theorem processItem_tooLong_eq (errOf : String → Option ErrKind) (fs : FS)
    (b dir : String) (sub : GoVal) (ep : Bool) (pre : String) (win : Bool)
    (hd : dir ≠ "") (hil : hasIllegalChars (finalNameOf ep pre dir) = false)
    (hlen : (win && decide (goLen (pathJoin b (finalNameOf ep pre dir)) > 260))
      = true) :
    processItem errOf fs b dir sub ep pre win =
      (preLogsOf ep pre dir
         ++ [.skippedPathTooLong (pathJoin b (finalNameOf ep pre dir))], fs) := by
  rw [processItem_eq, if_neg hd, hil]
  simp only [Bool.false_eq_true, if_false]
  rw [if_pos hlen]

/-! Re-running against the resulting filesystem: `os.MkdirAll` returns
nil for the directories the first run created, so the second run logs
them as created again. -/

mutual
theorem createLoop_rerun_created (errOf : String → Option ErrKind)
    (fs1 fs2 : FS)
    (b : String) (st : GoMap) (ep : Bool) (pre : String) (win : Bool)
    (p : String)
    (hsub : fs1.dirs ⊆ fs2.dirs)
    (hfin : (createLoop errOf fs1 b st ep pre win).2.dirs ⊆ fs2.dirs)
    (h : LogEntry.created p ∈ (createLoop errOf fs1 b st ep pre win).1) :
    LogEntry.created p ∈ (createLoop errOf fs2 b st ep pre win).1 := by
  cases st with
  | nil =>
      rw [createLoop_nil] at h
      exact absurd h (by simp)
  | cons dir sub rest =>
      rw [createLoop_cons_snd] at hfin
      rw [createLoop_cons_fst] at h
      rw [createLoop_cons_fst]
      have hI1sub : (processItem errOf fs1 b dir sub ep pre win).2.dirs
          ⊆ fs2.dirs :=
        (createLoop_dirs_mono errOf _ b rest ep pre win).trans hfin
      rcases List.mem_append.mp h with h1 | h2
      · -- created inside the first item of the first run
        refine List.mem_append_left _ ?_
        rcases processItem_shape errOf fs1 b dir sub ep pre win with
          ⟨_, heq⟩ | ⟨_, _, heq⟩ | ⟨hd, hil, _, heq⟩ | ⟨hd, hil, hlen, heq⟩
        · rw [heq] at h1
          exact absurd h1 (by simp)
        · rw [heq] at h1
          exfalso
          rcases List.mem_append.mp h1 with ha | hb
          · exact created_not_mem_preLogsOf _ _ _ _ ha
          · simp at hb
        · rw [heq] at h1
          exfalso
          rcases List.mem_append.mp h1 with ha | hb
          · exact created_not_mem_preLogsOf _ _ _ _ ha
          · simp at hb
        · rw [heq] at h1
          rw [heq] at hI1sub
          rw [processItem_final_eq errOf fs2 b dir sub ep pre win hd hil hlen]
          have hdes1sub : (descend errOf
              (mkdirAll errOf fs1 (pathJoin b (finalNameOf ep pre dir))).2
              (pathJoin b (finalNameOf ep pre dir)) sub ep pre win).2.dirs
                ⊆ fs2.dirs := hI1sub
          have hmk1sub : (mkdirAll errOf fs1
              (pathJoin b (finalNameOf ep pre dir))).2.dirs ⊆ fs2.dirs :=
            (descend_dirs_mono errOf _ _ sub ep pre win).trans hdes1sub
          rcases List.mem_append.mp h1 with ha | hb
          · rcases List.mem_append.mp ha with ha1 | ha2
            · exact absurd ha1 (created_not_mem_preLogsOf _ _ _ _)
            · -- the created entry of the item itself
              have he : outcomeEntry
                  (mkdirAll errOf fs1 (pathJoin b (finalNameOf ep pre dir))).1
                  (pathJoin b (finalNameOf ep pre dir)) = .created p :=
                (List.mem_singleton.mp ha2).symm
              obtain ⟨hok, hpfp⟩ := (outcomeEntry_eq_created_iff _ _ _).mp he
              have hpfs2 : pathJoin b (finalNameOf ep pre dir) ∈ fs2.dirs :=
                hmk1sub (mkdirAll_ok_mem errOf fs1 _ hok)
              rw [mkdirAll_mem errOf fs2 _ hpfs2]
              refine List.mem_append_left _ (List.mem_append_right _ ?_)
              rw [hpfp]
              simp [outcomeEntry]
          · -- created inside the children of the item
            refine List.mem_append_right _ ?_
            refine descend_rerun_created errOf _ _ _ sub ep pre win p ?_ ?_ hb
            · exact hmk1sub.trans (mkdirAll_dirs_mono errOf fs2 _)
            · exact hdes1sub.trans (mkdirAll_dirs_mono errOf fs2 _)
      · -- created among the remaining items of the first run
        refine List.mem_append_right _ ?_
        refine createLoop_rerun_created errOf _ _ b rest ep pre win p ?_ ?_ h2
        · exact ((createLoop_dirs_mono errOf _ b rest ep pre win).trans
            hfin).trans (processItem_dirs_mono errOf fs2 b dir sub ep pre win)
        · exact hfin.trans (processItem_dirs_mono errOf fs2 b dir sub ep pre win)
termination_by structural st

theorem descend_rerun_created (errOf : String → Option ErrKind)
    (fs1 fs2 : FS)
    (p0 : String) (sub : GoVal) (ep : Bool) (pre : String) (win : Bool)
    (p : String)
    (hsub : fs1.dirs ⊆ fs2.dirs)
    (hfin : (descend errOf fs1 p0 sub ep pre win).2.dirs ⊆ fs2.dirs)
    (h : LogEntry.created p ∈ (descend errOf fs1 p0 sub ep pre win).1) :
    LogEntry.created p ∈ (descend errOf fs2 p0 sub ep pre win).1 := by
  cases sub with
  | map m =>
      rw [descend_eq_createDirs] at h hfin ⊢
      rcases rootCheck_shape errOf fs1 p0 with
        ⟨h0, hr⟩ | ⟨h0, hm, hr⟩ | ⟨h0, hm, hr⟩ | ⟨h0, hm, reason, hr⟩
      · rw [createDirs_abort errOf fs1 p0 m ep pre win _ _ hr] at h
        exact absurd h (by simp)
      · rw [createDirs_proceed errOf fs1 p0 m ep pre win _ _ hr] at h hfin
        have h1 : LogEntry.created p ∈ (createLoop errOf fs1 p0 m ep pre win).1 := by
          simpa using h
        have hp02 : p0 ∈ fs2.dirs := hsub hm
        rw [createDirs_proceed errOf fs2 p0 m ep pre win _ _
          (rootCheck_mem errOf fs2 p0 h0 hp02)]
        exact List.mem_append_right _
          (createLoop_rerun_created errOf fs1 fs2 p0 m ep pre win p hsub hfin h1)
      · rw [createDirs_proceed errOf fs1 p0 m ep pre win _ _ hr] at h hfin
        have h1 : LogEntry.created p ∈
            (createLoop errOf ⟨p0 :: fs1.dirs, fs1.attempts ++ [p0]⟩
              p0 m ep pre win).1 := by
          rcases List.mem_append.mp h with ha | hb
          · exact absurd ha (by simp)
          · exact hb
        have hsub1 : (⟨p0 :: fs1.dirs, fs1.attempts ++ [p0]⟩ : FS).dirs
            ⊆ fs2.dirs :=
          (createLoop_dirs_mono errOf _ p0 m ep pre win).trans hfin
        have hp02 : p0 ∈ fs2.dirs := hsub1 (List.mem_cons_self _ _)
        rw [createDirs_proceed errOf fs2 p0 m ep pre win _ _
          (rootCheck_mem errOf fs2 p0 h0 hp02)]
        exact List.mem_append_right _
          (createLoop_rerun_created errOf _ fs2 p0 m ep pre win p hsub1 hfin h1)
      · rw [createDirs_abort errOf fs1 p0 m ep pre win _ _ hr] at h
        exact absurd h (by simp)
  | null => exact absurd h (by simp [descend])
  | str sx => exact absurd h (by simp [descend])
  | num nx => exact absurd h (by simp [descend])
  | arr xs => exact absurd h (by simp [descend])
termination_by structural sub
end


/-! Counting lemmas. -/

mutual
theorem countEq_allPairsMap (t : GoMap) :
    countTotalDirectories t = (allPairsMap t).length := by
  cases t with
  | nil => rfl
  | cons dir sub rest =>
      have h1 := countEq_allPairsVal sub
      have h2 := countEq_allPairsMap rest
      simp only [countTotalDirectories, allPairsMap, List.length_cons,
        List.length_append, h1, h2]
      omega
termination_by structural t

theorem countEq_allPairsVal (v : GoVal) :
    countSubDirs v = (allPairsVal v).length := by
  cases v with
  | map m => exact countEq_allPairsMap m
  | null => rfl
  | str sx => rfl
  | num nx => rfl
  | arr xs => rfl
termination_by structural v
end

/-! The claims. -/

/-- C7: for every tree and policy, calling `createDirs` with an empty
root path returns exactly the single `EmptyRootPath` log entry and
leaves the filesystem untouched — in particular `attempts` is unchanged,
so no directory creation is performed, regardless of the tree. -/
theorem empty_rootPath_single_entry_no_attempts
    (errOf : String → Option ErrKind) (fs : FS) (t : GoMap)
    (ep : Bool) (pre : String) (win : Bool) :
    createDirs errOf fs "" t ep pre win = ([.emptyRootPath], fs) := rfl

/-- C9: `countTotalDirectories t` equals the number of
`(name, children)` pairs of `t` at every depth (`allPairsMap` lists
them); every key counts once, whatever its name or value, and the
function takes no filesystem argument at all. -/
theorem countTotalDirectories_counts_all_pairs (t : GoMap) :
    countTotalDirectories t = (allPairsMap t).length :=
  countEq_allPairsMap t

/-- C6: parsing input of length zero fails with the empty-file error
whatever the extension and document (the length check precedes the
format switch); a decoded empty top-level mapping fails with
`emptyStructure` for both JSON and YAML; and `{"a": null}` parses to
the one-node tree whose single node `a` has no children
(`countSubDirs .null = 0`). -/
theorem parse_empty_and_singleton_cases :
    (∀ (ext : String) (doc : GoVal),
      parseStructureFromFile ext "" doc = .error .fileEmpty)
    ∧ parseStructureFromFile ".json" "{}" (.map .nil) = .error .emptyStructure
    ∧ parseStructureFromFile ".yaml" "{}" (.map .nil) = .error .emptyStructure
    ∧ parseStructureFromFile ".json" "\x7b\"a\": null\x7d" (.map (.cons "a" .null .nil))
        = .ok (.cons "a" .null .nil)
    ∧ countTotalDirectories (.cons "a" .null .nil) = 1
    ∧ countSubDirs .null = 0 :=
  ⟨fun _ _ => rfl, rfl, rfl, rfl, rfl, rfl⟩

/-- C4 (counterexample): a JSON document with a string as a child value
parses successfully to a tree — no `DecodeError` is produced, because
`json.Unmarshal` into `map[string]interface{}` accepts arbitrary values
at depth. -/
theorem parse_accepts_scalar_child_value :
    parseStructureFromFile ".json" "\x7b\"a\": \"hello\"\x7d"
        (.map (.cons "a" (.str "hello") .nil))
      = .ok (.cons "a" (.str "hello") .nil)
    ∧ ∀ e : ParseErr,
        parseStructureFromFile ".json" "\x7b\"a\": \"hello\"\x7d"
            (.map (.cons "a" (.str "hello") .nil)) ≠ .error e :=
  ⟨rfl, fun _ h => Except.noConfusion h⟩

/-- C4 (amended): whenever the decoded document is a non-empty
top-level mapping, parsing succeeds and returns that mapping unchanged,
whatever the shapes of the nested values — non-mapping, non-null child
values are accepted and retained, not rejected with a `DecodeError`. -/
theorem parse_keeps_nonmapping_children (raw : String) (m : GoMap)
    (h1 : raw.length ≠ 0) (h2 : goMapLen m ≠ 0) :
    parseStructureFromFile ".json" raw (.map m) = .ok m
    ∧ parseStructureFromFile ".yaml" raw (.map m) = .ok m
    ∧ parseStructureFromFile ".yml" raw (.map m) = .ok m := by
  refine ⟨?_, ?_, ?_⟩ <;>
    simp [parseStructureFromFile, unmarshalObj, h1, h2]

theorem parse_keeps_nonmapping_children_witness :
    ("x".length ≠ 0 ∧ goMapLen (.cons "a" (.str "y") .nil) ≠ 0)
    ∧ parseStructureFromFile ".json" "x" (.map (.cons "a" (.str "y") .nil))
        = .ok (.cons "a" (.str "y") .nil) :=
  ⟨⟨by decide, by decide⟩,
   (parse_keeps_nonmapping_children "x" (.cons "a" (.str "y") .nil)
     (by decide) (by decide)).1⟩

/-- C5: a directory name whose final form contains a reserved character
is skipped with no recursion: the loop body emits (after the optional
`PrefixApplied` line) exactly the `SkippedIllegalChars` entry and leaves
the filesystem — existing directories and attempts alike — untouched;
concretely, materializing `{"a<b": {"child": null}}` logs only
`SkippedIllegalChars "a<b"` and nothing about `child`. -/
theorem illegal_name_skipped_without_descent :
    (createDirs (fun _ => none) ⟨["/r"], []⟩ "/r"
        (.cons "a<b" (.map (.cons "child" .null .nil)) .nil) false "" false
      = ([.skippedIllegalChars "a<b"], ⟨["/r"], []⟩))
    ∧ ∀ (errOf : String → Option ErrKind) (fs : FS) (b dir : String)
        (sub : GoVal) (ep : Bool) (pre : String) (win : Bool),
        dir ≠ "" → hasIllegalChars (finalNameOf ep pre dir) = true →
        processItem errOf fs b dir sub ep pre win =
          (preLogsOf ep pre dir
             ++ [.skippedIllegalChars (finalNameOf ep pre dir)], fs) := by
  constructor
  · decide
  · intro errOf fs b dir sub ep pre win hd hil
    rw [processItem_eq, if_neg hd, if_pos hil]

theorem illegal_name_skipped_without_descent_witness :
    ("a<b" ≠ "" ∧ hasIllegalChars (finalNameOf false "" "a<b") = true)
    ∧ processItem (fun _ => none) ⟨[], []⟩ "/r" "a<b"
        (.map (.cons "child" .null .nil)) false "" false
      = (preLogsOf false "" "a<b"
           ++ [.skippedIllegalChars (finalNameOf false "" "a<b")],
         ⟨[], []⟩) :=
  ⟨⟨by decide, by decide⟩,
   illegal_name_skipped_without_descent.2 (fun _ => none) ⟨[], []⟩ "/r" "a<b"
     (.map (.cons "child" .null .nil)) false "" false (by decide) (by decide)⟩

/-- C10: a child value that is neither a mapping nor null (string,
number or list) is silently ignored: the loop body behaves exactly as
for a `null` child — the node's directory is still created, no log
entry mentions the value and nothing is recursed into — and
`countTotalDirectories` counts the node once, ignoring the value.  The
closed conjunct shows a string-valued node being created normally. -/
theorem nonmapping_child_ignored :
    (∀ (errOf : String → Option ErrKind) (fs : FS) (b dir : String)
        (v : GoVal) (rest : GoMap) (ep : Bool) (pre : String) (win : Bool),
        isScalarVal v = true →
        processItem errOf fs b dir v ep pre win
            = processItem errOf fs b dir .null ep pre win
        ∧ createLoop errOf fs b (.cons dir v rest) ep pre win
            = createLoop errOf fs b (.cons dir .null rest) ep pre win
        ∧ countTotalDirectories (.cons dir v rest)
            = 1 + countTotalDirectories rest)
    ∧ createDirs (fun _ => none) ⟨["/r"], []⟩ "/r"
        (.cons "a" (.str "x") .nil) false "" false
      = ([.created "/r/a"], ⟨["/r/a", "/r"], ["/r/a"]⟩) := by
  constructor
  · intro errOf fs b dir v rest ep pre win hv
    cases v with
    | str sx => exact ⟨rfl, rfl, rfl⟩
    | num nx => exact ⟨rfl, rfl, rfl⟩
    | arr xs => exact ⟨rfl, rfl, rfl⟩
    | null => simp [isScalarVal] at hv
    | map m => simp [isScalarVal] at hv
  · decide

theorem nonmapping_child_ignored_witness :
    isScalarVal (.str "x") = true
    ∧ processItem (fun _ => none) ⟨["/r"], []⟩ "/r" "a" (.str "x") false "" false
        = processItem (fun _ => none) ⟨["/r"], []⟩ "/r" "a" .null false "" false :=
  ⟨by decide,
   (nonmapping_child_ignored.1 (fun _ => none) ⟨["/r"], []⟩ "/r" "a" (.str "x")
     .nil false "" false (by decide)).1⟩

/-- C3 (code bug, evaluated at the failing input): a run whose only
per-node outcome is a permission failure produces the single
`PermissionDenied` entry, yet the summary computed by `main` counts it
in neither bucket — `strings.Count` looks for the markers "错误：" and
"跳过：", and the failure lines start with "创建目录失败：" instead.
`Created` and `Skipped*` entries are counted as the claim expects, but
`PermissionDenied`/`OtherError` entries are not. -/
theorem summary_counts_miss_failure_entries :
    (createDirs (fun p => if p = "/r/a" then some ErrKind.permission else none)
        ⟨["/r"], []⟩ "/r" (.cons "a" .null .nil) false "" false).1
      = [.permissionDenied "/r/a"]
    ∧ summaryCounts (joinLogs [.permissionDenied "/r/a"]) = (0, 0)
    ∧ summaryCounts (joinLogs [.otherError "/r/a" "disk full"]) = (0, 0)
    ∧ summaryCounts (joinLogs [.created "/r/a"]) = (1, 0)
    ∧ summaryCounts (joinLogs [.skippedIllegalChars "a<b"]) = (0, 1)
    ∧ summaryCounts (joinLogs [.skippedEmptyName]) = (0, 1)
    ∧ summaryCounts (joinLogs [.skippedPathTooLong "/r/x"]) = (0, 1)
    ∧ summaryCounts (joinLogs [.alreadyExists "/r/a"]) = (0, 0)
    ∧ summaryCounts (joinLogs [.prefixApplied "a" "X_a"]) = (0, 0)
    ∧ summaryCounts (joinLogs [.rootCreated "/r"]) = (0, 0) := by
  refine ⟨by decide, ?_, ?_, ?_, ?_, ?_, ?_, ?_, ?_, ?_⟩ <;> decide

/-- C2 (counterexample): `os.MkdirAll` does nothing and returns nil for
an existing directory, so re-materializing `\x7b"a": null\x7d` against
the same root takes the success branch again: the second run logs a
`Created` entry — and no `AlreadyExists` entry — for a node that
succeeded on the first run, refuting the claim as stated. -/
theorem second_run_not_alreadyExists_counterexample :
    LogEntry.created "/r/a" ∈
        (createDirs (fun _ => none) ⟨[], []⟩ "/r" (.cons "a" .null .nil)
          false "" false).1
    ∧ LogEntry.created "/r/a" ∈
        (createDirs (fun _ => none)
          (createDirs (fun _ => none) ⟨[], []⟩ "/r" (.cons "a" .null .nil)
            false "" false).2
          "/r" (.cons "a" .null .nil) false "" false).1
    ∧ LogEntry.alreadyExists "/r/a" ∉
        (createDirs (fun _ => none)
          (createDirs (fun _ => none) ⟨[], []⟩ "/r" (.cons "a" .null .nil)
            false "" false).2
          "/r" (.cons "a" .null .nil) false "" false).1 :=
  ⟨by decide, by decide, by decide⟩

/-- C2 (amended): re-materializing the same tree against the same root,
starting from the filesystem produced by the first run, logs every node
the first run created as created again — `os.MkdirAll` does nothing and
returns nil for an existing directory, so the success branch fires a
second time — and logs no `AlreadyExists` entry for it, the source's
`os.IsExist` branch being unreachable for existing directories. -/
theorem second_run_reports_created_again
    (errOf : String → Option ErrKind) (fs0 : FS) (b : String) (t : GoMap)
    (ep : Bool) (pre : String) (win : Bool) (p : String)
    (h : LogEntry.created p ∈ (createDirs errOf fs0 b t ep pre win).1) :
    LogEntry.created p ∈
        (createDirs errOf (createDirs errOf fs0 b t ep pre win).2
          b t ep pre win).1
    ∧ LogEntry.alreadyExists p ∉
        (createDirs errOf (createDirs errOf fs0 b t ep pre win).2
          b t ep pre win).1 :=
  ⟨descend_rerun_created errOf fs0 _ b (.map t) ep pre win p
     (createDirs_dirs_mono errOf fs0 b t ep pre win) (fun x hx => hx) h,
   descend_no_alreadyExists errOf _ b (.map t) ep pre win p⟩

theorem second_run_reports_created_again_witness :
    LogEntry.created "/r/a" ∈
        (createDirs (fun _ => none) ⟨[], []⟩ "/r" (.cons "a" .null .nil)
          false "" false).1
    ∧ LogEntry.created "/r/a" ∈
        (createDirs (fun _ => none)
          (createDirs (fun _ => none) ⟨[], []⟩ "/r" (.cons "a" .null .nil)
            false "" false).2
          "/r" (.cons "a" .null .nil) false "" false).1 :=
  ⟨by decide,
   (second_run_reports_created_again (fun _ => none) ⟨[], []⟩ "/r"
     (.cons "a" .null .nil) false "" false "/r/a" (by decide)).1⟩


theorem mkdirAll_fail (errOf : String → Option ErrKind) (fs : FS)
    (p : String) (k : ErrKind) (hm : p ∉ fs.dirs) (herr : errOf p = some k) :
    mkdirAll errOf fs p = (failOutcome k, ⟨fs.dirs, fs.attempts ++ [p]⟩) := by
  cases k with
  | permission => exact mkdirAll_perm errOf fs p hm herr
  | other r => exact mkdirAll_other errOf fs p r hm herr

theorem rootCheck_fail (errOf : String → Option ErrKind) (fs : FS)
    (b : String) (k : ErrKind) (h0 : b ≠ "") (hm : b ∉ fs.dirs)
    (herr : errOf b = some k) :
    rootCheck errOf fs b =
      .abort [.rootMissing b, .rootCreateFailed b (reasonOf k)]
        ⟨fs.dirs, fs.attempts ++ [b]⟩ := by
  cases k with
  | permission => exact rootCheck_permFail errOf fs b h0 hm herr
  | other r => exact rootCheck_otherFail errOf fs b r h0 hm herr

/-- A dead branch: descending below a path whose creation just failed
either does nothing (non-map child) or — via the recursive call's
root preamble — re-warns about the missing base, re-attempts the base
path itself, fails for the same oracle reason and returns. -/
theorem descend_dead (errOf : String → Option ErrKind) (fs : FS)
    (p0 : String) (sub : GoVal) (ep : Bool) (pre : String) (win : Bool)
    (k : ErrKind) (h0 : p0 ≠ "") (hm : p0 ∉ fs.dirs)
    (herr : errOf p0 = some k) :
    descend errOf fs p0 sub ep pre win = ([], fs)
    ∨ descend errOf fs p0 sub ep pre win =
        ([.rootMissing p0, .rootCreateFailed p0 (reasonOf k)],
         ⟨fs.dirs, fs.attempts ++ [p0]⟩) := by
  cases sub with
  | map m =>
      refine Or.inr ?_
      rw [descend_eq_createDirs]
      exact createDirs_abort errOf fs p0 m ep pre win _ _
        (rootCheck_fail errOf fs p0 k h0 hm herr)
  | null => exact Or.inl rfl
  | str sx => exact Or.inl rfl
  | num nx => exact Or.inl rfl
  | arr xs => exact Or.inl rfl

/-- C1: when the creation attempt for a node fails with a permission
error or any other error that is not already-exists, the loop body
emits the failure entry for the node's full path, and the branch is
dead: no log entry it returns refers to a path strictly under that
path, and every newly recorded `MkdirAll` attempt is the node's own
path, never a path under it.  (The source's error branches do fall
through to the recursion block, but the recursive call finds its
`basePath` missing, re-attempts that same path, fails for the same
reason and returns before reaching any child.) -/
theorem failed_node_emits_failure_without_descending
    (errOf : String → Option ErrKind) (fs : FS) (b dir : String)
    (sub : GoVal) (ep : Bool) (pre : String) (win : Bool) (k : ErrKind)
    (hd : dir ≠ "") (hil : hasIllegalChars (finalNameOf ep pre dir) = false)
    (hlen : (win && decide (goLen (pathJoin b (finalNameOf ep pre dir)) > 260))
      = false)
    (hmem : pathJoin b (finalNameOf ep pre dir) ∉ fs.dirs)
    (herr : errOf (pathJoin b (finalNameOf ep pre dir)) = some k) :
    failEntry k (pathJoin b (finalNameOf ep pre dir))
        ∈ (processItem errOf fs b dir sub ep pre win).1
    ∧ (∀ e ∈ (processItem errOf fs b dir sub ep pre win).1,
        ∀ q, entryPath e = some q →
          isUnder (pathJoin b (finalNameOf ep pre dir)) q = false)
    ∧ (∀ q ∈ (processItem errOf fs b dir sub ep pre win).2.attempts,
        q ∉ fs.attempts →
          isUnder (pathJoin b (finalNameOf ep pre dir)) q = false) := by
  have hfp0 : pathJoin b (finalNameOf ep pre dir) ≠ "" := pathJoin_ne_empty _ _
  have heq := processItem_final_eq errOf fs b dir sub ep pre win hd hil hlen
  rw [mkdirAll_fail errOf fs _ k hmem herr] at heq
  have hout : outcomeEntry (failOutcome k, (⟨fs.dirs, fs.attempts
      ++ [pathJoin b (finalNameOf ep pre dir)]⟩ : FS)).1
        (pathJoin b (finalNameOf ep pre dir))
      = failEntry k (pathJoin b (finalNameOf ep pre dir)) := by
    cases k <;> rfl
  rw [hout] at heq
  rcases descend_dead errOf
      ⟨fs.dirs, fs.attempts ++ [pathJoin b (finalNameOf ep pre dir)]⟩
      (pathJoin b (finalNameOf ep pre dir)) sub ep pre win k hfp0 hmem herr
    with hdead | hdead
  · rw [hdead] at heq
    refine ⟨?_, ?_, ?_⟩
    · rw [heq]
      exact List.mem_append_left _ (List.mem_append_right _ (by simp))
    · intro e he q hq
      rw [heq] at he
      rcases List.mem_append.mp he with he1 | he2
      · rcases List.mem_append.mp he1 with ha | hb
        · rw [mem_preLogsOf ep pre dir e ha] at hq
          exact absurd hq (by simp [entryPath])
        · have heb : e = failEntry k (pathJoin b (finalNameOf ep pre dir)) :=
            List.mem_singleton.mp hb
          have hqe : q = pathJoin b (finalNameOf ep pre dir) := by
            rw [heb] at hq
            cases k <;> simpa [failEntry, entryPath] using hq.symm
          rw [hqe]
          exact isUnder_self _
      · simp at he2
    · intro q hqmem hqnew
      rw [heq] at hqmem
      have hq : q = pathJoin b (finalNameOf ep pre dir) := by
        rcases List.mem_append.mp hqmem with h1 | h2
        · exact absurd h1 hqnew
        · simpa using h2
      rw [hq]
      exact isUnder_self _
  · rw [hdead] at heq
    refine ⟨?_, ?_, ?_⟩
    · rw [heq]
      exact List.mem_append_left _ (List.mem_append_right _ (by simp))
    · intro e he q hq
      rw [heq] at he
      rcases List.mem_append.mp he with he1 | he2
      · rcases List.mem_append.mp he1 with ha | hb
        · rw [mem_preLogsOf ep pre dir e ha] at hq
          exact absurd hq (by simp [entryPath])
        · have heb : e = failEntry k (pathJoin b (finalNameOf ep pre dir)) :=
            List.mem_singleton.mp hb
          have hqe : q = pathJoin b (finalNameOf ep pre dir) := by
            rw [heb] at hq
            cases k <;> simpa [failEntry, entryPath] using hq.symm
          rw [hqe]
          exact isUnder_self _
      · have hqe : q = pathJoin b (finalNameOf ep pre dir) := by
          rcases List.mem_cons.mp he2 with hrm | hrc
          · rw [hrm] at hq
            simpa [entryPath] using hq.symm
          · rcases List.mem_singleton.mp hrc with rfl
            simpa [entryPath] using hq.symm
        rw [hqe]
        exact isUnder_self _
    · intro q hqmem hqnew
      rw [heq] at hqmem
      have hq : q = pathJoin b (finalNameOf ep pre dir) := by
        rcases List.mem_append.mp hqmem with h1 | h2
        · rcases List.mem_append.mp h1 with ha | hb
          · exact absurd ha hqnew
          · simpa using hb
        · simpa using h2
      rw [hq]
      exact isUnder_self _

theorem failed_node_emits_failure_without_descending_witness :
    ("a" ≠ ""
      ∧ hasIllegalChars (finalNameOf false "" "a") = false
      ∧ (false && decide (goLen (pathJoin "/r" (finalNameOf false "" "a")) > 260))
          = false
      ∧ pathJoin "/r" (finalNameOf false "" "a") ∉ (⟨["/r"], []⟩ : FS).dirs
      ∧ (fun p => if p = "/r/a" then some ErrKind.permission else none)
          (pathJoin "/r" (finalNameOf false "" "a")) = some ErrKind.permission)
    ∧ failEntry ErrKind.permission (pathJoin "/r" (finalNameOf false "" "a"))
        ∈ (processItem (fun p => if p = "/r/a" then some ErrKind.permission else none)
            ⟨["/r"], []⟩ "/r" "a" (.map (.cons "b" .null .nil)) false "" false).1 :=
  ⟨⟨by decide, by decide, by decide, by decide, by decide⟩,
   (failed_node_emits_failure_without_descending
     (fun p => if p = "/r/a" then some ErrKind.permission else none)
     ⟨["/r"], []⟩ "/r" "a" (.map (.cons "b" .null .nil)) false "" false
     ErrKind.permission (by decide) (by decide) (by decide) (by decide)
     (by decide)).1⟩


theorem append_ne_empty_left (P q : String) (hP : P ≠ "") : P ++ q ≠ "" := by
  intro h
  apply hP
  have hd : (P ++ q).data = [] := by rw [h]
  rw [String.data_append] at hd
  rcases List.append_eq_nil.mp hd with ⟨h1, _⟩
  cases P
  simp only [String.data] at h1
  rw [h1]

theorem isPrefixLog_outcomeEntry (o : MkdirOutcome) (fp : String) :
    isPrefixLog (outcomeEntry o fp) = false := by
  cases o <;> rfl

theorem isPrefixLog_prefixApplied (n f : String) :
    isPrefixLog (.prefixApplied n f) = true := rfl

theorem finalNameOf_on (P dir : String) (hP : P ≠ "") :
    finalNameOf true P dir = P ++ dir := by
  have hPb : (P != "") = true := by simpa using hP
  simp [finalNameOf, hPb]

theorem preLogsOf_on (P dir : String) (hP : P ≠ "") :
    preLogsOf true P dir = [.prefixApplied dir (P ++ dir)] := by
  have hPb : (P != "") = true := by simpa using hP
  simp [preLogsOf, hPb, finalNameOf_on P dir hP]

theorem finalNameOf_off (ep : Bool) (pre dir : String)
    (h : (ep && (pre != "")) = false) : finalNameOf ep pre dir = dir := by
  simp [finalNameOf, h]

theorem preLogsOf_off (ep : Bool) (pre dir : String)
    (h : (ep && (pre != "")) = false) : preLogsOf ep pre dir = [] := by
  simp [preLogsOf, h]

theorem noEmptyMap_cons (dir : String) (sub : GoVal) (rest : GoMap)
    (h : noEmptyMap (.cons dir sub rest) = true) :
    dir ≠ "" ∧ noEmptyVal sub = true ∧ noEmptyMap rest = true := by
  have h2 := h
  unfold noEmptyMap at h2
  simp only [Bool.and_eq_true, bne_iff_ne, ne_eq] at h2
  exact ⟨h2.1.1, h2.1.2, h2.2⟩

/-! With the policy enabled and a non-empty prefix, a run is the run on
the renamed tree with the policy disabled, plus `PrefixApplied` lines. -/

mutual
theorem createLoop_renamed (errOf : String → Option ErrKind) (fs : FS)
    (b : String) (st : GoMap) (P : String) (win : Bool) (hP : P ≠ "")
    (hne : noEmptyMap st = true) :
    (createLoop errOf fs b st true P win).1.filter (fun e => !(isPrefixLog e))
        = (createLoop errOf fs b (renameMap (fun n => P ++ n) st)
            false "" win).1
    ∧ (createLoop errOf fs b st true P win).2
        = (createLoop errOf fs b (renameMap (fun n => P ++ n) st)
            false "" win).2 := by
  cases st with
  | nil => exact ⟨rfl, rfl⟩
  | cons dir sub rest =>
      obtain ⟨hd, hnsub, hnrest⟩ := noEmptyMap_cons dir sub rest hne
      have hd2 : P ++ dir ≠ "" := append_ne_empty_left P dir hP
      have hfn1 : finalNameOf true P dir = P ++ dir := finalNameOf_on P dir hP
      have hfn2 : finalNameOf false "" (P ++ dir) = P ++ dir :=
        finalNameOf_off false "" (P ++ dir) rfl
      have hitem :
          (processItem errOf fs b dir sub true P win).1.filter
              (fun e => !(isPrefixLog e))
            = (processItem errOf fs b (P ++ dir)
                (renameVal (fun n => P ++ n) sub) false "" win).1
          ∧ (processItem errOf fs b dir sub true P win).2
            = (processItem errOf fs b (P ++ dir)
                (renameVal (fun n => P ++ n) sub) false "" win).2 := by
        by_cases hil : hasIllegalChars (P ++ dir) = true
        · rw [processItem_illegal_eq errOf fs b dir sub true P win hd
              (by rw [hfn1]; exact hil),
            processItem_illegal_eq errOf fs b (P ++ dir)
              (renameVal (fun n => P ++ n) sub) false "" win hd2
              (by rw [hfn2]; exact hil)]
          rw [preLogsOf_on P dir hP, preLogsOf_off false "" (P ++ dir) rfl,
            hfn1, hfn2]
          exact ⟨by simp [isPrefixLog], rfl⟩
        · rw [Bool.not_eq_true] at hil
          by_cases hlen :
              (win && decide (goLen (pathJoin b (P ++ dir)) > 260)) = true
          · rw [processItem_tooLong_eq errOf fs b dir sub true P win hd
                (by rw [hfn1]; exact hil) (by rw [hfn1]; exact hlen),
              processItem_tooLong_eq errOf fs b (P ++ dir)
                (renameVal (fun n => P ++ n) sub) false "" win hd2
                (by rw [hfn2]; exact hil) (by rw [hfn2]; exact hlen)]
            rw [preLogsOf_on P dir hP, preLogsOf_off false "" (P ++ dir) rfl,
              hfn1, hfn2]
            exact ⟨by simp [isPrefixLog], rfl⟩
          · rw [Bool.not_eq_true] at hlen
            rw [processItem_final_eq errOf fs b dir sub true P win hd
                (by rw [hfn1]; exact hil) (by rw [hfn1]; exact hlen),
              processItem_final_eq errOf fs b (P ++ dir)
                (renameVal (fun n => P ++ n) sub) false "" win hd2
                (by rw [hfn2]; exact hil) (by rw [hfn2]; exact hlen)]
            rw [preLogsOf_on P dir hP, preLogsOf_off false "" (P ++ dir) rfl,
              hfn1, hfn2]
            have hrec := descend_renamed errOf
              (mkdirAll errOf fs (pathJoin b (P ++ dir))).2
              (pathJoin b (P ++ dir)) sub P win hP hnsub
            constructor
            · rw [List.filter_append, List.filter_append, hrec.1]
              simp [isPrefixLog_outcomeEntry, isPrefixLog_prefixApplied]
            · exact hrec.2
      have hrest := createLoop_renamed errOf
        (processItem errOf fs b dir sub true P win).2 b rest P win hP hnrest
      simp only [renameMap]
      rw [createLoop_cons_fst, createLoop_cons_fst,
        createLoop_cons_snd, createLoop_cons_snd]
      rw [List.filter_append, hitem.1, hrest.1, hrest.2, hitem.2]
      exact ⟨rfl, rfl⟩
termination_by structural st

theorem descend_renamed (errOf : String → Option ErrKind) (fs : FS)
    (p0 : String) (sub : GoVal) (P : String) (win : Bool) (hP : P ≠ "")
    (hne : noEmptyVal sub = true) :
    (descend errOf fs p0 sub true P win).1.filter (fun e => !(isPrefixLog e))
        = (descend errOf fs p0 (renameVal (fun n => P ++ n) sub)
            false "" win).1
    ∧ (descend errOf fs p0 sub true P win).2
        = (descend errOf fs p0 (renameVal (fun n => P ++ n) sub)
            false "" win).2 := by
  cases sub with
  | map m =>
      have hnem : noEmptyMap m = true := hne
      simp only [renameVal, descend_eq_createDirs]
      rcases rootCheck_shape errOf fs p0 with
        ⟨h0, hr⟩ | ⟨h0, hm, hr⟩ | ⟨h0, hm, hr⟩ | ⟨h0, hm, reason, hr⟩
      · rw [createDirs_abort errOf fs p0 m true P win _ _ hr,
          createDirs_abort errOf fs p0 _ false "" win _ _ hr]
        exact ⟨by simp [isPrefixLog], rfl⟩
      · rw [createDirs_proceed errOf fs p0 m true P win _ _ hr,
          createDirs_proceed errOf fs p0 _ false "" win _ _ hr]
        have hrec := createLoop_renamed errOf fs p0 m P win hP hnem
        exact ⟨by simpa using hrec.1, hrec.2⟩
      · rw [createDirs_proceed errOf fs p0 m true P win _ _ hr,
          createDirs_proceed errOf fs p0 _ false "" win _ _ hr]
        have hrec := createLoop_renamed errOf
          ⟨p0 :: fs.dirs, fs.attempts ++ [p0]⟩ p0 m P win hP hnem
        constructor
        · rw [List.filter_append, hrec.1]
          simp [isPrefixLog]
        · exact hrec.2
      · rw [createDirs_abort errOf fs p0 m true P win _ _ hr,
          createDirs_abort errOf fs p0 _ false "" win _ _ hr]
        exact ⟨by simp [isPrefixLog], rfl⟩
  | null => exact ⟨rfl, rfl⟩
  | str sx => exact ⟨rfl, rfl⟩
  | num nx => exact ⟨rfl, rfl⟩
  | arr xs => exact ⟨rfl, rfl⟩
termination_by structural sub
end

/-! With the policy disabled or the prefix empty, the run coincides with
the run under the trivial policy, and no `PrefixApplied` line exists. -/

mutual
theorem createLoop_policy_off (errOf : String → Option ErrKind) (fs : FS)
    (b : String) (st : GoMap) (ep : Bool) (pre : String) (win : Bool)
    (h : (ep && (pre != "")) = false) :
    createLoop errOf fs b st ep pre win
      = createLoop errOf fs b st false "" win := by
  cases st with
  | nil => rfl
  | cons dir sub rest =>
      have hitem : processItem errOf fs b dir sub ep pre win
          = processItem errOf fs b dir sub false "" win := by
        rw [processItem_eq errOf fs b dir sub ep pre win,
          processItem_eq errOf fs b dir sub false "" win]
        rw [finalNameOf_off ep pre dir h, finalNameOf_off false "" dir rfl,
          preLogsOf_off ep pre dir h, preLogsOf_off false "" dir rfl]
        rw [descend_policy_off errOf _ _ sub ep pre win h]
      have hrest := createLoop_policy_off errOf
        (processItem errOf fs b dir sub ep pre win).2 b rest ep pre win h
      have hgoal1 := createLoop_cons_fst errOf fs b dir sub rest ep pre win
      have hgoal2 := createLoop_cons_snd errOf fs b dir sub rest ep pre win
      refine Prod.ext ?_ ?_
      · rw [createLoop_cons_fst, createLoop_cons_fst, hrest, hitem]
      · rw [createLoop_cons_snd, createLoop_cons_snd, hrest, hitem]
termination_by structural st

theorem descend_policy_off (errOf : String → Option ErrKind) (fs : FS)
    (p0 : String) (sub : GoVal) (ep : Bool) (pre : String) (win : Bool)
    (h : (ep && (pre != "")) = false) :
    descend errOf fs p0 sub ep pre win
      = descend errOf fs p0 sub false "" win := by
  cases sub with
  | map m =>
      show createDirs errOf fs p0 m ep pre win
        = createDirs errOf fs p0 m false "" win
      rcases rootCheck_shape errOf fs p0 with
        ⟨h0, hr⟩ | ⟨h0, hm, hr⟩ | ⟨h0, hm, hr⟩ | ⟨h0, hm, reason, hr⟩
      · rw [createDirs_abort errOf fs p0 m ep pre win _ _ hr,
          createDirs_abort errOf fs p0 m false "" win _ _ hr]
      · rw [createDirs_proceed errOf fs p0 m ep pre win _ _ hr,
          createDirs_proceed errOf fs p0 m false "" win _ _ hr,
          createLoop_policy_off errOf fs p0 m ep pre win h]
      · rw [createDirs_proceed errOf fs p0 m ep pre win _ _ hr,
          createDirs_proceed errOf fs p0 m false "" win _ _ hr,
          createLoop_policy_off errOf _ p0 m ep pre win h]
      · rw [createDirs_abort errOf fs p0 m ep pre win _ _ hr,
          createDirs_abort errOf fs p0 m false "" win _ _ hr]
  | null => rfl
  | str sx => rfl
  | num nx => rfl
  | arr xs => rfl
termination_by structural sub
end

mutual
theorem createLoop_no_prefixApplied (errOf : String → Option ErrKind)
    (fs : FS) (b : String) (st : GoMap) (win : Bool) (n f : String) :
    LogEntry.prefixApplied n f ∉ (createLoop errOf fs b st false "" win).1 := by
  cases st with
  | nil => simp [createLoop_nil]
  | cons dir sub rest =>
      rw [createLoop_cons_fst]
      intro hmem
      rcases List.mem_append.mp hmem with h1 | h2
      · rcases processItem_shape errOf fs b dir sub false "" win with
          ⟨_, heq⟩ | ⟨_, _, heq⟩ | ⟨_, _, _, heq⟩ | ⟨_, _, _, heq⟩
        · rw [heq] at h1
          simp at h1
        · rw [heq, preLogsOf_off false "" dir rfl] at h1
          simp at h1
        · rw [heq, preLogsOf_off false "" dir rfl] at h1
          simp at h1
        · rw [heq, preLogsOf_off false "" dir rfl] at h1
          rcases List.mem_append.mp h1 with ha | hb
          · have := List.mem_singleton.mp (by simpa using ha)
            have hfalse := isPrefixLog_outcomeEntry
              (mkdirAll errOf fs (pathJoin b (finalNameOf false "" dir))).1
              (pathJoin b (finalNameOf false "" dir))
            rw [← this] at hfalse
            simp [isPrefixLog] at hfalse
          · exact descend_no_prefixApplied errOf _ _ sub win n f hb
      · exact createLoop_no_prefixApplied errOf _ b rest win n f h2
termination_by structural st

theorem descend_no_prefixApplied (errOf : String → Option ErrKind)
    (fs : FS) (p0 : String) (sub : GoVal) (win : Bool) (n f : String) :
    LogEntry.prefixApplied n f ∉ (descend errOf fs p0 sub false "" win).1 := by
  cases sub with
  | map m =>
      rw [descend_eq_createDirs]
      rcases rootCheck_shape errOf fs p0 with
        ⟨h0, hr⟩ | ⟨h0, hm, hr⟩ | ⟨h0, hm, hr⟩ | ⟨h0, hm, reason, hr⟩
      · rw [createDirs_abort errOf fs p0 m false "" win _ _ hr]
        simp
      · rw [createDirs_proceed errOf fs p0 m false "" win _ _ hr]
        intro hmem
        have h1 : LogEntry.prefixApplied n f
            ∈ (createLoop errOf fs p0 m false "" win).1 := by simpa using hmem
        exact createLoop_no_prefixApplied errOf fs p0 m win n f h1
      · rw [createDirs_proceed errOf fs p0 m false "" win _ _ hr]
        intro hmem
        rcases List.mem_append.mp hmem with ha | hb
        · simp at ha
        · exact createLoop_no_prefixApplied errOf _ p0 m win n f hb
      · rw [createDirs_abort errOf fs p0 m false "" win _ _ hr]
        simp
  | null => simp [descend]
  | str sx => simp [descend]
  | num nx => simp [descend]
  | arr xs => simp [descend]
termination_by structural sub
end

/-- C8: with the policy enabled and a non-empty prefix `P`, the whole
run — every log entry and the final filesystem, at every depth — equals
the run on the tree whose every name is renamed to `P ++ name` with the
policy disabled, up to removing the informational `PrefixApplied`
lines (the policy is passed unchanged into every recursive call); with
the policy disabled or the prefix empty, the run coincides with the
trivial-policy run (names are used unchanged) and contains no
`PrefixApplied` entry. -/
theorem prefix_policy_uniform :
    (∀ (errOf : String → Option ErrKind) (fs : FS) (b : String) (t : GoMap)
        (P : String) (win : Bool), P ≠ "" → noEmptyMap t = true →
        (createDirs errOf fs b t true P win).1.filter
            (fun e => !(isPrefixLog e))
          = (createDirs errOf fs b (renameMap (fun n => P ++ n) t)
              false "" win).1
        ∧ (createDirs errOf fs b t true P win).2
          = (createDirs errOf fs b (renameMap (fun n => P ++ n) t)
              false "" win).2)
    ∧ (∀ (errOf : String → Option ErrKind) (fs : FS) (b : String) (t : GoMap)
        (ep : Bool) (pre : String) (win : Bool), ep = false ∨ pre = "" →
        createDirs errOf fs b t ep pre win
          = createDirs errOf fs b t false "" win)
    ∧ (∀ (errOf : String → Option ErrKind) (fs : FS) (b : String) (t : GoMap)
        (win : Bool) (n f : String),
        LogEntry.prefixApplied n f ∉ (createDirs errOf fs b t false "" win).1) := by
  refine ⟨?_, ?_, ?_⟩
  · intro errOf fs b t P win hP hne
    exact descend_renamed errOf fs b (.map t) P win hP hne
  · intro errOf fs b t ep pre win hoff
    have hcond : (ep && (pre != "")) = false := by
      rcases hoff with h | h
      · rw [h]
        rfl
      · rw [h]
        simp
    exact descend_policy_off errOf fs b (.map t) ep pre win hcond
  · intro errOf fs b t win n f
    exact descend_no_prefixApplied errOf fs b (.map t) win n f

theorem prefix_policy_uniform_witness :
    ("X_" ≠ "" ∧ noEmptyMap (.cons "a" (.map (.cons "b" .null .nil)) .nil) = true)
    ∧ ((createDirs (fun _ => none) ⟨["/r"], []⟩ "/r"
          (.cons "a" (.map (.cons "b" .null .nil)) .nil) true "X_" false).1.filter
            (fun e => !(isPrefixLog e))
        = (createDirs (fun _ => none) ⟨["/r"], []⟩ "/r"
            (renameMap (fun n => "X_" ++ n)
              (.cons "a" (.map (.cons "b" .null .nil)) .nil)) false "" false).1)
    ∧ (createDirs (fun _ => none) ⟨["/r"], []⟩ "/r"
          (.cons "a" .null .nil) true "" false
        = createDirs (fun _ => none) ⟨["/r"], []⟩ "/r"
            (.cons "a" .null .nil) false "" false) :=
  ⟨⟨by decide, by decide⟩,
   (prefix_policy_uniform.1 (fun _ => none) ⟨["/r"], []⟩ "/r"
     (.cons "a" (.map (.cons "b" .null .nil)) .nil) "X_" false
     (by decide) (by decide)).1,
   prefix_policy_uniform.2.1 (fun _ => none) ⟨["/r"], []⟩ "/r"
     (.cons "a" .null .nil) true "" false (Or.inr rfl)⟩

end DirTree
